import Mathlib

/-!
Verification of the campaign dispatch and reply correlation engine (`app.py`).

The record store is an external collaborator queried through a generic
entity-store interface, so it is embedded as in-memory lists of rows; the
HTTP layer is embedded as plain functions from parsed request data to a
status/response value and an updated store.  Randomness (`secrets.token_hex`)
is embedded as an explicit supply of tokens passed in by the caller, and the
outbound transport (`send_email`) as an oracle giving each attempt's outcome.
Timestamps are opaque strings (ISO-8601 in production), ordered
lexicographically, except recipient `created_at`, which the store orders by
and which is embedded as a numeric insertion counter.  Python machine strings
are embedded as `String`/`List Char`; regular-expression matching of the
sender pattern is embedded as an explicit leftmost backtracking search over
ASCII character classes.
-/

set_option maxRecDepth 8000

/-! ### Python string helpers -/

/-- `a or d` for an optional form field: `None` and `""` are falsy. -/
def pyOr (a : Option String) (d : String) : String :=
  match a with
  | none => d
  | some s => if s = "" then d else s

/-- Characters accepted by the local part `[A-Z0-9._%+-]` of `EMAIL_RE`
(case-insensitive, ASCII). -/
def isLocalChar (c : Char) : Bool :=
  c.isAlpha || c.isDigit || c == '.' || c == '_' || c == '%' || c == '+' || c == '-'

/-- Characters accepted by the domain part `[A-Z0-9.-]` of `EMAIL_RE`. -/
def isDomainChar (c : Char) : Bool :=
  c.isAlpha || c.isDigit || c == '.' || c == '-'

/-- Maximal run of letters, the greedy `[A-Z]{2,}` tail of `EMAIL_RE`. -/
def letterRun (l : List Char) : List Char :=
  l.takeWhile (fun c => c.isAlpha)

/-- Backtracking for `[A-Z0-9.-]+\.[A-Z]{2,}` after the first domain
character: find the rightmost `.` followed by at least two letters, and
return everything up to the end of that letter run. -/
def dotSplit : List Char → Option (List Char)
  | [] => none
  | c :: rest =>
    match dotSplit rest with
    | some m => some (c :: m)
    | none =>
      if c == '.' then
        if 2 ≤ (letterRun rest).length then some (c :: letterRun rest) else none
      else none

/-- Attempt to match `EMAIL_RE` at the head of the character list, returning
the matched characters. -/
def matchAt (l : List Char) : Option (List Char) :=
  match l.takeWhile isLocalChar, l.dropWhile isLocalChar with
  | [], _ => none
  | loc, '@' :: rest =>
    match rest.takeWhile isDomainChar with
    | [] => none
    | d :: dtl =>
      match dotSplit dtl with
      | some m => some (loc ++ '@' :: d :: m)
      | none => none
  | _, _ => none

/-- Leftmost search of `EMAIL_RE`, as `re.search` performs. -/
def searchFrom : List Char → Option (List Char)
  | [] => none
  | c :: cs =>
    match matchAt (c :: cs) with
    | some m => some m
    | none => searchFrom cs

/-- `extract_email`: best-effort address extraction, lowercased; `""` when
the input is falsy or holds no address. -/
def extract_email (s : String) : String :=
  if s = "" then ""
  else
    match searchFrom s.data with
    | some m => String.mk (m.map Char.toLower)
    | none => ""

/-- `startsL p l` holds when `p` is an initial segment of `l`. -/
def startsL : List Char → List Char → Bool
  | [], _ => true
  | _ :: _, [] => false
  | p :: ps, c :: cs => p == c && startsL ps cs

/-- `occursL m l`: some suffix of `l` starts with `m` (Python `m in l`). -/
def occursL (m : List Char) : List Char → Bool
  | [] => startsL m []
  | c :: cs => startsL m (c :: cs) || occursL m cs

/-- Everything before the first occurrence of `m` (Python `l.split(m, 1)[0]`);
the whole list when `m` does not occur. -/
def cutBefore (m : List Char) : List Char → List Char
  | [] => []
  | c :: cs => if startsL m (c :: cs) then [] else c :: cutBefore m cs

/-- Whitespace stripped by Python `str.strip()` (ASCII range). -/
def pySpace (c : Char) : Bool :=
  c == ' ' || c == '\t' || c == '\n' || c == '\r' || c == '\x0b' || c == '\x0c'

/-- Python `str.strip()` on a character list. -/
def stripL (l : List Char) : List Char :=
  ((l.dropWhile pySpace).reverse.dropWhile pySpace).reverse

/-- The quoted-reply marker `"\nOn "`. -/
def mOn : List Char := ['\n', 'O', 'n', ' ']

/-- The quoted-reply marker `"\nFrom:"`. -/
def mFrom : List Char := ['\n', 'F', 'r', 'o', 'm', ':']

/-- The quoted-reply marker `"\n>"`. -/
def mGt : List Char := ['\n', '>']

/-- `clean_body`: successively truncate at `"\nOn "`, `"\nFrom:"`, `"\n>"`
when present, then strip surrounding whitespace. -/
def clean_body (text : String) : String :=
  let t1 := if occursL mOn text.data then cutBefore mOn text.data else text.data
  let t2 := if occursL mFrom t1 then cutBefore mFrom t1 else t1
  let t3 := if occursL mGt t2 then cutBefore mGt t2 else t2
  String.mk (stripL t3)

/-! ### Data model

Rows of the three entity-store tables (`campaigns`, `campaign_recipients`,
`replies`).  Row ids and recipient `created_at` are numeric counters issued
by the store; all other timestamps are opaque strings. -/

structure Campaign where
  id : Nat
  name : String
  subject : Option String
  body : Option String
  status : String
  created_at : Nat
  sent_at : Option String
deriving DecidableEq

structure Recipient where
  id : Nat
  campaign_id : Nat
  email : String
  token : String
  created_at : Nat
  sent_at : Option String
  replied_at : Option String
deriving DecidableEq

structure Reply where
  id : Nat
  campaign_id : Option Nat
  recipient_email : String
  token : Option String
  subject : Option String
  body : String
  message_id : String
  received_at : String
deriving DecidableEq

structure DB where
  campaigns : List Campaign
  recipients : List Recipient
  replies : List Reply
deriving DecidableEq

/-- The tokens currently bound to recipients, in row order. -/
def tokensOf (recs : List Recipient) : List String :=
  recs.map (fun r => r.token)

/-! ### Webhook ingestion (`POST /mailgun`) -/

/-- The form-encoded fields of an inbound webhook event; `none` is an absent
field. -/
structure WebhookForm where
  sender : Option String
  fromField : Option String
  subject : Option String
  body_plain : Option String
  message_id : Option String
deriving DecidableEq

/-- The canonical sender address:
`extract_email(form.get("sender") or form.get("from") or "")`. -/
def senderOf (f : WebhookForm) : String :=
  extract_email (pyOr f.sender (pyOr f.fromField ""))

/-- The plaintext body, with absent embedded as `""` (both are falsy). -/
def bodyOf (f : WebhookForm) : String := f.body_plain.getD ""

/-- The external message identifier, with absent embedded as `""`. -/
def midOf (f : WebhookForm) : String := f.message_id.getD ""

/-- The store query `eq("email", sender).order("created_at", desc).limit(1)`:
the most recently created recipient with the given address. -/
def lookupRecent (rs : List Recipient) (email : String) : Option Recipient :=
  (rs.filter (fun r => r.email == email)).foldl
    (fun acc r =>
      match acc with
      | none => some r
      | some b => if b.created_at < r.created_at then some r else some b)
    none

/-- The reply row inserted for a correlated event: campaign and token are
denormalized from the resolved recipient `rec`. -/
def ingestReply (f : WebhookForm) (now : String) (rid : Nat) (rec : Recipient) :
    Reply :=
  { id := rid,
    campaign_id := some rec.campaign_id,
    recipient_email := senderOf f,
    token := some rec.token,
    subject := f.subject,
    body := clean_body (bodyOf f),
    message_id := midOf f,
    received_at := now }

/-- The store update `update({"replied_at": now}).eq("email", sender)`. -/
def markRepliedAll (recs : List Recipient) (sender now : String) :
    List Recipient :=
  recs.map
    (fun r => if r.email == sender then { r with replied_at := some now } else r)

/-- `mailgun_webhook`: validate, dedupe on the external message identifier,
correlate by sender address, append the reply and mark matching recipients
replied.  `now` is the ingestion timestamp and `rid` the fresh reply row id.
Returns the HTTP status and the updated store. -/
def mailgun_webhook (f : WebhookForm) (now : String) (rid : Nat) (db : DB) :
    Nat × DB :=
  if senderOf f = "" ∨ bodyOf f = "" ∨ midOf f = "" then (200, db)
  else if db.replies.any (fun r => r.message_id == midOf f) then (200, db)
  else
    match lookupRecent db.recipients (senderOf f) with
    | none => (200, db)
    | some rec =>
      (200,
        { db with
          replies := db.replies ++ [ingestReply f now rid rec],
          recipients := markRepliedAll db.recipients (senderOf f) now })

/-! ### Reply CSV export (`GET /campaigns/<cid>/replies.csv`) -/

/-- Lexicographic comparison of character lists by code point. -/
def chLe : List Char → List Char → Bool
  | [], _ => true
  | _ :: _, [] => false
  | a :: as, b :: bs =>
    decide (a.toNat < b.toNat) || (a.toNat == b.toNat && chLe as bs)

/-- Lexicographic order on timestamp strings (chronological for ISO-8601). -/
def strLe (a b : String) : Bool := chLe a.data b.data

/-- `replyGE a b`: reply `a` is received no earlier than `b`; the descending
order used by `order("received_at", desc=True)`. -/
def replyGE (a b : Reply) : Prop := strLe b.received_at a.received_at = true

instance : DecidableRel replyGE := fun a b =>
  inferInstanceAs (Decidable (strLe b.received_at a.received_at = true))

instance : IsTotal Reply replyGE where
  total a b := by
    have key : ∀ x y : List Char, chLe x y = true ∨ chLe y x = true := by
      intro x
      induction x with
      | nil => intro y; left; rfl
      | cons a as ih =>
        intro y
        cases y with
        | nil => right; rfl
        | cons b bs =>
          simp only [chLe, Bool.or_eq_true, Bool.and_eq_true, decide_eq_true_eq,
            beq_iff_eq]
          rcases Nat.lt_trichotomy a.toNat b.toNat with h | h | h
          · exact Or.inl (Or.inl h)
          · rcases ih bs with h2 | h2
            · exact Or.inl (Or.inr ⟨h, h2⟩)
            · exact Or.inr (Or.inr ⟨h.symm, h2⟩)
          · exact Or.inr (Or.inl h)
    exact (key b.received_at.data a.received_at.data).imp id id

instance : IsTrans Reply replyGE where
  trans a b c hab hbc := by
    have key : ∀ x y z : List Char,
        chLe x y = true → chLe y z = true → chLe x z = true := by
      intro x
      induction x with
      | nil => intro y z _ _; rfl
      | cons a as ih =>
        intro y z h1 h2
        cases y with
        | nil => cases h1
        | cons b bs =>
          cases z with
          | nil => cases h2
          | cons c cs =>
            simp only [chLe, Bool.or_eq_true, Bool.and_eq_true,
              decide_eq_true_eq, beq_iff_eq] at h1 h2 ⊢
            rcases h1 with h1 | ⟨h1e, h1r⟩ <;> rcases h2 with h2 | ⟨h2e, h2r⟩
            · exact Or.inl (by omega)
            · exact Or.inl (by omega)
            · exact Or.inl (by omega)
            · exact Or.inr ⟨by omega, ih bs cs h1r h2r⟩
    exact key c.received_at.data b.received_at.data a.received_at.data hbc hab

/-- A management-role CSV row:
`received_at, recipient_email, token, subject, body`. -/
def replyRowM (r : Reply) : List String :=
  [r.received_at, r.recipient_email, r.token.getD "", r.subject.getD "", r.body]

/-- A constrained-role CSV row: `received_at, token, subject, body`. -/
def replyRowC (r : Reply) : List String :=
  [r.received_at, r.token.getD "", r.subject.getD "", r.body]

/-- The campaign's replies as returned by the store: filtered on
`campaign_id` and ordered by `received_at` descending. -/
def repliesOfCampaign (db : DB) (cid : Nat) : List Reply :=
  List.insertionSort replyGE (db.replies.filter (fun r => r.campaign_id == some cid))

/-- `replies_csv`: role check (`403` embedded as `none`), then header and
rows for the management or constrained variant. -/
def replies_csv (is_m is_c : Bool) (cid : Nat) (db : DB) :
    Option (List String × List (List String)) :=
  if !is_m && !is_c then none
  else if is_m then
    some (["received_at", "recipient_email", "token", "subject", "body"],
      (repliesOfCampaign db cid).map replyRowM)
  else
    some (["received_at", "token", "subject", "body"],
      (repliesOfCampaign db cid).map replyRowC)

/-! ### Email upload (`POST /campaigns/<cid>/upload-emails`) -/

inductive UploadResp where
  | errResp (code : Nat) (msg : String)
  | okResp (uploaded : Nat)
deriving DecidableEq

/-- The rows built before the upsert: one per input email, each bound to a
fresh token from the supply `toks` (standing for `secrets.token_hex(8)`
draws) and a fresh row id from `ids`. -/
def mkRows (cid : Nat) (emails : List String) (toks : Nat → String)
    (ids : Nat → Nat) (now : Nat) : List Recipient :=
  emails.enum.map (fun ie =>
    { id := ids ie.1, campaign_id := cid, email := ie.2, token := toks ie.1,
      created_at := now, sent_at := none, replied_at := none })

/-- The store's `upsert(rows, on_conflict="campaign_id,email",
ignore_duplicates=True)`: insert each row unless its (campaign, email) pair
is already present. -/
def upsertIgnoreDuplicates (recs : List Recipient) (rows : List Recipient) :
    List Recipient :=
  rows.foldl
    (fun acc r =>
      if acc.any (fun x => x.campaign_id == r.campaign_id && x.email == r.email)
      then acc
      else acc ++ [r])
    recs

/-- `upload_emails`: validate, build rows with fresh tokens, upsert, and
report `{"uploaded": len(rows)}`. -/
def upload_emails (cid : Nat) (emails : List String) (toks : Nat → String)
    (ids : Nat → Nat) (now : Nat) (db : DB) : UploadResp × DB :=
  if emails = [] then (.errResp 400 "no emails provided", db)
  else
    match db.campaigns.find? (fun d => d.id == cid) with
    | none => (.errResp 404 "campaign not found", db)
    | some _ =>
      (.okResp (mkRows cid emails toks ids now).length,
       { db with recipients :=
           upsertIgnoreDuplicates db.recipients (mkRows cid emails toks ids now) })

/-- Modelled from the spec: the storage-layer uniqueness constraint on
`Recipient.token` (§4.1: the invariant "must be enforced at the storage
layer via a uniqueness constraint — a collision must surface as a retryable
error, not a silent overwrite").  The database schema declaring this
constraint is not part of the application source; this models a recipient
insert against it: a duplicate (campaign, email) pair is ignored per the
upsert's conflict target, and a token collision aborts with an error. -/
def insertRecipientChecked (recs : List Recipient) (r : Recipient) :
    Except String (List Recipient) :=
  if recs.any (fun x => x.campaign_id == r.campaign_id && x.email == r.email)
  then .ok recs
  else if recs.any (fun x => x.token == r.token)
  then .error "unique constraint violated on recipients token"
  else .ok (recs ++ [r])

/-- Modelled from the spec: `upload_emails` run against the store with the
token uniqueness constraint of `insertRecipientChecked`.  A constraint
violation aborts the whole statement (`.error`), leaving the store as it
was. -/
def upload_emails_checked (cid : Nat) (emails : List String)
    (toks : Nat → String) (ids : Nat → Nat) (now : Nat) (db : DB) :
    Except String (UploadResp × DB) :=
  if emails = [] then .ok (.errResp 400 "no emails provided", db)
  else
    match db.campaigns.find? (fun d => d.id == cid) with
    | none => .ok (.errResp 404 "campaign not found", db)
    | some _ =>
      match (mkRows cid emails toks ids now).foldlM insertRecipientChecked
          db.recipients with
      | .error e => .error e
      | .ok recs =>
        .ok (.okResp (mkRows cid emails toks ids now).length,
             { db with recipients := recs })

/-! ### Campaign dispatch (`POST /campaigns/<cid>/send`) -/

inductive SendResp where
  | errResp (code : Nat) (msg : String)
  | okResp (sent failed : Nat)
deriving DecidableEq

/-- The mutable state of the dispatch loop: the recipients table, the two
counters, and the trace of attempted recipient row ids (one entry per
`send_email` call, in order). -/
structure LoopState where
  recs : List Recipient
  sent : Nat
  failed : Nat
  attempts : List Nat
deriving DecidableEq

/-- The store update `update({"sent_at": now}).eq("id", i)`. -/
def markSentById (recs : List Recipient) (i : Nat) (now : String) :
    List Recipient :=
  recs.map (fun r => if r.id == i then { r with sent_at := some now } else r)

/-- The per-recipient send loop: `ok r.id` is the transport outcome of the
attempt to `r`; success marks the row sent at the shared timestamp and bumps
`sent`, failure bumps `failed` and moves on. -/
def dispatchLoop (ok : Nat → Bool) (now : String) :
    List Recipient → LoopState → LoopState
  | [], st => st
  | r :: rest, st =>
    if ok r.id then
      dispatchLoop ok now rest
        { recs := markSentById st.recs r.id now, sent := st.sent + 1,
          failed := st.failed, attempts := st.attempts ++ [r.id] }
    else
      dispatchLoop ok now rest
        { st with failed := st.failed + 1, attempts := st.attempts ++ [r.id] }

/-- The campaign's recipients with null `sent_at`: the rows fetched by
`eq("campaign_id", cid)` and then filtered in Python on `sent_at is None`. -/
def unsentOf (db : DB) (cid : Nat) : List Recipient :=
  (db.recipients.filter (fun r => r.campaign_id == cid)).filter
    (fun r => r.sent_at.isNone)

/-- `send_campaign`: precondition checks, then the send loop over the unsent
recipients, then the campaign status/timestamp update.  Returns the response,
the updated store, and the trace of attempted recipient ids.  The
single-row campaign lookup is embedded as returning `none` when no row
matches, the case the surrounding code checks for. -/
def send_campaign (cid : Nat) (ok : Nat → Bool) (now : String) (db : DB) :
    SendResp × DB × List Nat :=
  match db.campaigns.find? (fun d => d.id == cid) with
  | none => (.errResp 404 "campaign not found", db, [])
  | some campaign =>
    if campaign.status ≠ "ready" then (.errResp 400 "campaign not ready", db, [])
    else if unsentOf db cid = [] then
      (.errResp 400 "no recipients uploaded", db, [])
    else
      let st := dispatchLoop ok now (unsentOf db cid)
        { recs := db.recipients, sent := 0, failed := 0, attempts := [] }
      (.okResp st.sent st.failed,
       { db with
         recipients := st.recs,
         campaigns := db.campaigns.map
           (fun d =>
             if d.id == cid then
               { d with status := if st.failed = 0 then "sent" else "partial",
                        sent_at := some now }
             else d) },
       st.attempts)

/-! ### Claim-side definitions for body cleaning

`cutAllMarkers` characterizes `clean_body`'s truncation independently, in a
single pass; `clean_body_claimed` renders the claim's own wording, where a
marker line is recognized even as the first line. -/

/-- Everything before the first position where any of the three newline
markers begins, in a single pass. -/
def cutAllMarkers : List Char → List Char
  | [] => []
  | c :: cs =>
    if startsL mOn (c :: cs) || startsL mFrom (c :: cs) || startsL mGt (c :: cs)
    then []
    else c :: cutAllMarkers cs

/-- Truncate at the first line — including the first line of the text —
starting with `"On "`, `"From:"` or `">"`.  The flag records whether the
scan is at the start of a line. -/
def cutLines : Bool → List Char → List Char
  | _, [] => []
  | atStart, c :: cs =>
    if atStart &&
        (startsL ['O', 'n', ' '] (c :: cs) ||
         startsL ['F', 'r', 'o', 'm', ':'] (c :: cs) ||
         startsL ['>'] (c :: cs))
    then []
    else c :: cutLines (c == '\n') cs

/-- Body cleaning as the claim words it, for comparison with `clean_body`:
the text before the first line starting with `"On "`, `"From:"` or `">"`,
trimmed of surrounding whitespace. -/
def clean_body_claimed (text : String) : String :=
  String.mk (stripL (cutLines true text.data))

/-! ### Sample rows used by witnesses and counterexamples -/

def campReady : Campaign :=
  { id := 1, name := "launch", subject := some "s", body := some "b",
    status := "ready", created_at := 0, sent_at := none }

def campDraft : Campaign :=
  { id := 2, name := "draft", subject := none, body := none,
    status := "draft", created_at := 1, sent_at := none }

def recOne : Recipient :=
  { id := 1, campaign_id := 1, email := "x@y.co", token := "t1",
    created_at := 1, sent_at := none, replied_at := none }

def recTwo : Recipient :=
  { id := 2, campaign_id := 1, email := "z@y.co", token := "t2",
    created_at := 2, sent_at := none, replied_at := none }

def recDupOld : Recipient :=
  { id := 3, campaign_id := 1, email := "a@b.co", token := "t3",
    created_at := 3, sent_at := none, replied_at := none }

def recDupNew : Recipient :=
  { id := 4, campaign_id := 2, email := "a@b.co", token := "t4",
    created_at := 4, sent_at := none, replied_at := none }

def replyOld : Reply :=
  { id := 1, campaign_id := some 1, recipient_email := "x@y.co",
    token := some "t1", subject := some "re", body := "earlier",
    message_id := "m-old", received_at := "2024-01-01T00:00:00" }

def replyNew : Reply :=
  { id := 2, campaign_id := some 1, recipient_email := "z@y.co",
    token := some "t2", subject := some "re", body := "later",
    message_id := "m-new", received_at := "2024-02-01T00:00:00" }

def replyOther : Reply :=
  { id := 3, campaign_id := some 9, recipient_email := "q@y.co",
    token := none, subject := none, body := "other",
    message_id := "m-other", received_at := "2024-03-01T00:00:00" }

def wfFull : WebhookForm :=
  { sender := some "Alice <alice@example.com>", fromField := none,
    subject := some "Hi", body_plain := some "hello", message_id := some "m1" }

def wfRetry : WebhookForm :=
  { sender := some "x@y.co", fromField := none, subject := some "Hi",
    body_plain := some "hello", message_id := some "m1" }

def wfDup : WebhookForm :=
  { sender := some "a@b.co", fromField := none, subject := some "s",
    body_plain := some "hey", message_id := some "m9" }

def wfNoAddr : WebhookForm :=
  { sender := some "Bob at example dot com", fromField := none,
    subject := none, body_plain := some "hello", message_id := some "m1" }


def okFirst : Nat → Bool := fun i => i == 1

def dbDispatch : DB := DB.mk [campReady] [recOne, recTwo] []

def toksW : Nat → String := fun i => if i = 0 then "tk0" else "tk1"

def idsW : Nat → Nat := fun i => 10 + i

def dbUpload : DB := DB.mk [campReady, campDraft] [] []

def dbCsv : DB := DB.mk [] [] [replyOld, replyNew, replyOther]

/-! ### Lemmas: body cleaning -/

theorem startsL_of_extend (p : List Char) :
    ∀ u v : List Char, startsL p u = true → (∃ s, u ++ s = v) →
      startsL p v = true := by
  induction p with
  | nil => intro u v _ _; rfl
  | cons a ps ih =>
    intro u v h hx
    cases u with
    | nil => cases h
    | cons c cs =>
      rcases hx with ⟨s, hs⟩
      cases v with
      | nil => simp at hs
      | cons d ds =>
        simp only [List.cons_append, List.cons.injEq] at hs
        rcases hs with ⟨hcd, hcs⟩
        simp only [startsL, Bool.and_eq_true, beq_iff_eq] at h ⊢
        exact ⟨hcd ▸ h.1, ih cs ds h.2 ⟨s, hcs⟩⟩

theorem cutBefore_extend (m : List Char) : ∀ t, ∃ s, cutBefore m t ++ s = t := by
  intro t
  induction t with
  | nil => exact ⟨[], rfl⟩
  | cons c cs ih =>
    by_cases h : startsL m (c :: cs) = true
    · exact ⟨c :: cs, by simp [cutBefore, h]⟩
    · rcases ih with ⟨s, hs⟩
      refine ⟨s, ?_⟩
      simp only [cutBefore, h, if_false, Bool.false_eq_true, ite_false]
      simp [hs]

theorem startsL_cutBefore (tl : List Char) :
    ∀ p t : List Char, '\n' ∉ p → startsL p t = true →
      startsL p (cutBefore ('\n' :: tl) t) = true := by
  intro p
  induction p with
  | nil => intro t _ _; rfl
  | cons a ps ih =>
    intro t hnl h
    cases t with
    | nil => cases h
    | cons c cs =>
      simp only [startsL, Bool.and_eq_true, beq_iff_eq] at h
      rcases h with ⟨hac, hrest⟩
      have hanl : a ≠ '\n' := by
        intro hEq
        rw [hEq] at hnl
        exact hnl (List.mem_cons_self _ _)
      have hne : startsL ('\n' :: tl) (c :: cs) = false := by
        simp only [startsL, Bool.and_eq_false_iff, beq_eq_false_iff_ne]
        left
        rw [← hac]
        exact fun hx => hanl hx.symm
      rw [show cutBefore ('\n' :: tl) (c :: cs) = c :: cutBefore ('\n' :: tl) cs
        from by simp [cutBefore, hne]]
      simp only [startsL, Bool.and_eq_true, beq_iff_eq]
      refine ⟨hac, ih cs ?_ hrest⟩
      exact fun hm => hnl (List.mem_cons_of_mem a hm)

theorem cutBefore_of_not_occurs (m : List Char) :
    ∀ t, occursL m t = false → cutBefore m t = t := by
  intro t
  induction t with
  | nil => intro _; rfl
  | cons c cs ih =>
    intro h
    simp only [occursL, Bool.or_eq_false_iff] at h
    rcases h with ⟨h1, h2⟩
    simp only [cutBefore, h1, Bool.false_eq_true, if_false, ite_false]
    rw [ih h2]

theorem cutAllMarkers_of_not_occurs :
    ∀ t, occursL mOn t = false → occursL mFrom t = false →
      occursL mGt t = false → cutAllMarkers t = t := by
  intro t
  induction t with
  | nil => intro _ _ _; rfl
  | cons c cs ih =>
    intro h1 h2 h3
    simp only [occursL, Bool.or_eq_false_iff] at h1 h2 h3
    simp only [cutAllMarkers, h1.1, h2.1, h3.1, Bool.or_self, Bool.false_eq_true,
      if_false, ite_false, Bool.false_or]
    rw [ih h1.2 h2.2 h3.2]

theorem cutSeq_eq_cutAllMarkers :
    ∀ t, cutBefore mGt (cutBefore mFrom (cutBefore mOn t)) = cutAllMarkers t := by
  intro t
  induction t with
  | nil => rfl
  | cons c cs ih =>
    by_cases h1 : startsL mOn (c :: cs) = true
    · rw [show cutBefore mOn (c :: cs) = [] from by simp [cutBefore, h1]]
      simp [cutAllMarkers, h1, cutBefore]
    · have hA : cutBefore mOn (c :: cs) = c :: cutBefore mOn cs := by
        simp [cutBefore, h1]
      by_cases h2 : startsL mFrom (c :: cs) = true
      · have h2' := h2
        rw [show mFrom = '\n' :: ['F', 'r', 'o', 'm', ':'] from rfl] at h2'
        simp only [startsL, Bool.and_eq_true, beq_iff_eq] at h2'
        have hstart2 : startsL mFrom (c :: cutBefore mOn cs) = true := by
          rw [show mFrom = '\n' :: ['F', 'r', 'o', 'm', ':'] from rfl]
          simp only [startsL, Bool.and_eq_true, beq_iff_eq]
          exact ⟨h2'.1, startsL_cutBefore ['O', 'n', ' '] _ cs (by decide) h2'.2⟩
        rw [hA, show cutBefore mFrom (c :: cutBefore mOn cs) = [] from by
          simp [cutBefore, hstart2]]
        simp [cutAllMarkers, h2, cutBefore]
      · have hnot2 : startsL mFrom (c :: cutBefore mOn cs) = false := by
          cases hx : startsL mFrom (c :: cutBefore mOn cs) with
          | false => rfl
          | true =>
            exfalso
            rcases cutBefore_extend mOn cs with ⟨s, hs⟩
            have : startsL mFrom (c :: cs) = true :=
              startsL_of_extend mFrom _ _ hx ⟨s, by simp [hs]⟩
            exact h2 this
        have hB : cutBefore mFrom (c :: cutBefore mOn cs) =
            c :: cutBefore mFrom (cutBefore mOn cs) := by
          simp [cutBefore, hnot2]
        by_cases h3 : startsL mGt (c :: cs) = true
        · have h3' := h3
          rw [show mGt = '\n' :: ['>'] from rfl] at h3'
          simp only [startsL, Bool.and_eq_true, beq_iff_eq] at h3'
          have hstart3 :
              startsL mGt (c :: cutBefore mFrom (cutBefore mOn cs)) = true := by
            rw [show mGt = '\n' :: ['>'] from rfl]
            simp only [startsL, Bool.and_eq_true, beq_iff_eq]
            refine ⟨h3'.1, ?_⟩
            exact startsL_cutBefore ['F', 'r', 'o', 'm', ':'] _ _ (by decide)
              (startsL_cutBefore ['O', 'n', ' '] _ cs (by decide) h3'.2)
          rw [hA, hB, show cutBefore mGt (c :: cutBefore mFrom (cutBefore mOn cs)) = []
            from by simp [cutBefore, hstart3]]
          simp [cutAllMarkers, h3]
        · have hnot3 :
              startsL mGt (c :: cutBefore mFrom (cutBefore mOn cs)) = false := by
            cases hx : startsL mGt (c :: cutBefore mFrom (cutBefore mOn cs)) with
            | false => rfl
            | true =>
              exfalso
              rcases cutBefore_extend mFrom (cutBefore mOn cs) with ⟨s1, hs1⟩
              rcases cutBefore_extend mOn cs with ⟨s2, hs2⟩
              have hext : (c :: cutBefore mFrom (cutBefore mOn cs)) ++ (s1 ++ s2) =
                  c :: cs := by
                simp only [List.cons_append, List.cons.injEq, true_and]
                rw [← List.append_assoc, hs1, hs2]
              have : startsL mGt (c :: cs) = true :=
                startsL_of_extend mGt _ _ hx ⟨s1 ++ s2, hext⟩
              exact h3 this
          have hC : cutBefore mGt (c :: cutBefore mFrom (cutBefore mOn cs)) =
              c :: cutBefore mGt (cutBefore mFrom (cutBefore mOn cs)) := by
            simp [cutBefore, hnot3]
          rw [hA, hB, hC, ih]
          simp [cutAllMarkers, h1, h2, h3]

theorem guardedCut_eq (m : List Char) (t : List Char) :
    (if occursL m t then cutBefore m t else t) = cutBefore m t := by
  by_cases h : occursL m t = true
  · rw [if_pos h]
  · simp only [Bool.not_eq_true] at h
    rw [if_neg (by simp [h]), cutBefore_of_not_occurs m t h]

/-- C7 (counterexample): the claim reads a marker as a line starting with
"On ", "From:" or ">" anywhere, including the first line of the text.  On
`"On Mon wrote:\nquoted"` the claimed cleaning yields the text before that
marker line, i.e. `""`, but `clean_body` recognizes markers only after a
newline and returns the input trimmed and unchanged. -/
theorem clean_body_first_line_cex :
    clean_body "On Mon wrote:\nquoted" = "On Mon wrote:\nquoted" ∧
    clean_body_claimed "On Mon wrote:\nquoted" = "" ∧
    clean_body "On Mon wrote:\nquoted" ≠
      clean_body_claimed "On Mon wrote:\nquoted" := by
  refine ⟨by decide, by decide, by decide⟩

/-- C7 (amended): body cleaning returns the text before the first occurrence
of a quoted-reply marker preceded by a newline — `"\nOn "`, `"\nFrom:"` or
`"\n>"`, never the first line — trimmed of surrounding whitespace;
`"Hello\nOn Mon wrote:\nquoted"` cleans to `"Hello"`, and an input in which
no such marker occurs is returned trimmed and otherwise unchanged. -/
theorem clean_body_newline_markers (t u : String)
    (hu1 : occursL mOn u.data = false) (hu2 : occursL mFrom u.data = false)
    (hu3 : occursL mGt u.data = false) :
    clean_body t = String.mk (stripL (cutAllMarkers t.data)) ∧
    clean_body "Hello\nOn Mon wrote:\nquoted" = "Hello" ∧
    clean_body u = String.mk (stripL u.data) := by
  refine ⟨?_, by decide, ?_⟩
  · simp only [clean_body]
    rw [guardedCut_eq, guardedCut_eq, guardedCut_eq, cutSeq_eq_cutAllMarkers]
  · simp only [clean_body]
    rw [guardedCut_eq, guardedCut_eq, guardedCut_eq, cutSeq_eq_cutAllMarkers,
      cutAllMarkers_of_not_occurs u.data hu1 hu2 hu3]

/-- C7 witness: the amended theorem applied at `t := "  a\nFrom: b"` and the
marker-free `u := "  hi there "`. -/
theorem clean_body_newline_markers_witness :
    (occursL mOn "  hi there ".data = false ∧
     occursL mFrom "  hi there ".data = false ∧
     occursL mGt "  hi there ".data = false) ∧
    (clean_body "  a\nFrom: b" =
       String.mk (stripL (cutAllMarkers "  a\nFrom: b".data)) ∧
     clean_body "Hello\nOn Mon wrote:\nquoted" = "Hello" ∧
     clean_body "  hi there " = String.mk (stripL "  hi there ".data)) :=
  ⟨⟨by decide, by decide, by decide⟩,
   clean_body_newline_markers "  a\nFrom: b" "  hi there "
     (by decide) (by decide) (by decide)⟩

/-! ### Lemmas: webhook ingestion -/

theorem webhook_split (f : WebhookForm) (now : String) (rid : Nat) (db : DB) :
    mailgun_webhook f now rid db = (200, db) ∨
    ∃ rec, lookupRecent db.recipients (senderOf f) = some rec ∧
      db.replies.any (fun r => r.message_id == midOf f) = false ∧
      senderOf f ≠ "" ∧ bodyOf f ≠ "" ∧ midOf f ≠ "" ∧
      mailgun_webhook f now rid db =
        (200,
         { db with
           replies := db.replies ++ [ingestReply f now rid rec],
           recipients := markRepliedAll db.recipients (senderOf f) now }) := by
  unfold mailgun_webhook
  split
  · exact Or.inl rfl
  · rename_i hvalid
    push_neg at hvalid
    split
    · exact Or.inl rfl
    · rename_i hdup
      simp only [Bool.not_eq_true] at hdup
      cases hrec : lookupRecent db.recipients (senderOf f) with
      | none => exact Or.inl rfl
      | some rec =>
        exact Or.inr ⟨rec, rfl, hdup, hvalid.1, hvalid.2.1, hvalid.2.2, rfl⟩

theorem webhook_dup_noop (f : WebhookForm) (now : String) (rid : Nat) (db : DB)
    (h : db.replies.any (fun r => r.message_id == midOf f) = true) :
    mailgun_webhook f now rid db = (200, db) := by
  rcases webhook_split f now rid db with h' | ⟨rec, _, hdup, _, _, _, _⟩
  · exact h'
  · rw [hdup] at h; cases h

theorem any_of_countP {α : Type} (p : α → Bool) (l : List α)
    (h : 1 ≤ l.countP p) : l.any p = true := by
  rw [List.any_eq_true]
  have hx := List.countP_pos_iff.mp (by omega : 0 < l.countP p)
  rcases hx with ⟨a, ha, hpa⟩
  exact ⟨a, ha, hpa⟩

theorem webhook_countP_le (f : WebhookForm) (now : String) (rid : Nat) (db : DB)
    (m : String) :
    ((mailgun_webhook f now rid db).2.replies.countP
        (fun r => r.message_id == m)) ≤
      db.replies.countP (fun r => r.message_id == m) + 1 := by
  rcases webhook_split f now rid db with h | ⟨rec, _, _, _, _, _, h⟩ <;> rw [h]
  · dsimp only; omega
  · simp only [List.countP_append, List.countP_cons, List.countP_nil]
    split <;> omega

/-- C1: webhook ingestion is idempotent on the external message identifier.
For two ingestion calls both carrying `Message-Id = m`: starting from a
store with no reply for `m`, at most one reply row with `m` exists after
both calls; and whenever a reply with `m` already exists after the first
call, the second call returns HTTP 200 and performs no write at all. -/
theorem webhook_idempotent_on_message_id (f1 f2 : WebhookForm)
    (m now1 now2 : String) (i1 i2 : Nat) (db0 : DB)
    (_h1 : f1.message_id = some m) (h2 : f2.message_id = some m) :
    (db0.replies.countP (fun r => r.message_id == m) = 0 →
      ((mailgun_webhook f2 now2 i2
          (mailgun_webhook f1 now1 i1 db0).2).2.replies.countP
        (fun r => r.message_id == m)) ≤ 1) ∧
    (1 ≤ ((mailgun_webhook f1 now1 i1 db0).2.replies.countP
        (fun r => r.message_id == m)) →
      mailgun_webhook f2 now2 i2 (mailgun_webhook f1 now1 i1 db0).2 =
        (200, (mailgun_webhook f1 now1 i1 db0).2)) := by
  have hm2 : midOf f2 = m := by simp [midOf, h2]
  have hnoop : 1 ≤ ((mailgun_webhook f1 now1 i1 db0).2.replies.countP
      (fun r => r.message_id == m)) →
      mailgun_webhook f2 now2 i2 (mailgun_webhook f1 now1 i1 db0).2 =
        (200, (mailgun_webhook f1 now1 i1 db0).2) := by
    intro hge
    apply webhook_dup_noop
    rw [hm2]
    exact any_of_countP _ _ hge
  refine ⟨?_, hnoop⟩
  intro h0
  have hdb1 := webhook_countP_le f1 now1 i1 db0 m
  rw [h0] at hdb1
  rcases Nat.le_one_iff_eq_zero_or_eq_one.mp hdb1 with hc | hc
  · have := webhook_countP_le f2 now2 i2 (mailgun_webhook f1 now1 i1 db0).2 m
    omega
  · rw [hnoop (by omega)]
    dsimp only
    omega

/-- C1 witness: a full redelivery scenario — the first call inserts the
reply for recipient `recOne`, the second call with the same `Message-Id`
leaves the store untouched. -/
theorem webhook_idempotent_on_message_id_witness :
    wfRetry.message_id = some "m1" ∧
    (((DB.mk [] [recOne] []).replies.countP
        (fun r => r.message_id == "m1") = 0 →
      ((mailgun_webhook wfRetry "T2" 2
          (mailgun_webhook wfRetry "T1" 1 (DB.mk [] [recOne] [])).2).2.replies.countP
        (fun r => r.message_id == "m1")) ≤ 1) ∧
     (1 ≤ ((mailgun_webhook wfRetry "T1" 1
          (DB.mk [] [recOne] [])).2.replies.countP
            (fun r => r.message_id == "m1")) →
       mailgun_webhook wfRetry "T2" 2
          (mailgun_webhook wfRetry "T1" 1 (DB.mk [] [recOne] [])).2 =
        (200, (mailgun_webhook wfRetry "T1" 1 (DB.mk [] [recOne] [])).2))) :=
  ⟨rfl,
   webhook_idempotent_on_message_id wfRetry wfRetry "m1" "T1" "T2" 1 2
     (DB.mk [] [recOne] []) rfl rfl⟩

/-- C4 (counterexample): a well-formed event (valid sender address, body and
message identifier) whose sender matches no recipient does not produce a
reply row with a null association — the store stays empty. -/
theorem webhook_unmatched_sender_cex :
    extract_email "Alice <alice@example.com>" = "alice@example.com" ∧
    (mailgun_webhook wfFull "T0" 1 (DB.mk [] [] [])).2.replies = [] ∧
    (mailgun_webhook wfFull "T0" 1 (DB.mk [] [] [])) = (200, DB.mk [] [] []) := by
  refine ⟨by decide, by decide, by decide⟩

/-- C4 (amended): when the sender address matches no recipient, the event is
acknowledged with HTTP 200 and dropped: no reply row is recorded and the
store is unchanged. -/
theorem webhook_unmatched_sender_dropped (f : WebhookForm) (now : String)
    (rid : Nat) (db : DB)
    (h : lookupRecent db.recipients (senderOf f) = none) :
    mailgun_webhook f now rid db = (200, db) := by
  rcases webhook_split f now rid db with h' | ⟨rec, hrec, _, _, _, _, _⟩
  · exact h'
  · rw [h] at hrec; cases hrec

/-- C4 witness: the amended theorem applied to a well-formed event against
an empty recipient directory. -/
theorem webhook_unmatched_sender_dropped_witness :
    lookupRecent (DB.mk [] [] []).recipients (senderOf wfFull) = none ∧
    mailgun_webhook wfFull "T0" 1 (DB.mk [] [] []) = (200, DB.mk [] [] []) :=
  ⟨by decide, webhook_unmatched_sender_dropped wfFull "T0" 1 _ (by decide)⟩

/-- C5 (counterexample): two recipients share the address `a@b.co`;
`recDupNew` is the most recently created one, yet ingesting a reply from
that address stamps `replied_at` on both rows — the older `recDupOld` is not
left unchanged. -/
theorem webhook_replied_at_cex :
    lookupRecent [recDupOld, recDupNew] "a@b.co" = some recDupNew ∧
    (mailgun_webhook wfDup "T1" 7
        (DB.mk [] [recDupOld, recDupNew] [])).2.recipients =
      [{ recDupOld with replied_at := some "T1" },
       { recDupNew with replied_at := some "T1" }] := by
  refine ⟨by decide, by decide⟩

/-- C5 (amended): on a successful ingest, `replied_at` is stamped with the
ingestion timestamp on every recipient whose email equals the sender
address — across all campaigns, not only the most recently created one —
and recipients with a different address are left unchanged. -/
theorem webhook_replied_at_updates_every_match (f : WebhookForm)
    (now : String) (rid : Nat) (db : DB) (rec : Recipient)
    (hs : senderOf f ≠ "") (hb : bodyOf f ≠ "") (hm : midOf f ≠ "")
    (hdup : db.replies.any (fun r => r.message_id == midOf f) = false)
    (hrec : lookupRecent db.recipients (senderOf f) = some rec) :
    (mailgun_webhook f now rid db).2.recipients =
      db.recipients.map
        (fun r =>
          if r.email == senderOf f then { r with replied_at := some now }
          else r) := by
  unfold mailgun_webhook
  rw [if_neg (by push_neg; exact ⟨hs, hb, hm⟩), if_neg (by simp [hdup]), hrec]
  rfl

/-- C5 witness: the amended theorem applied to the two-recipient store of
the counterexample. -/
theorem webhook_replied_at_updates_every_match_witness :
    (senderOf wfDup ≠ "") ∧
    (mailgun_webhook wfDup "T1" 7
        (DB.mk [] [recDupOld, recDupNew] [])).2.recipients =
      (DB.mk [] [recDupOld, recDupNew] []).recipients.map
        (fun r =>
          if r.email == senderOf wfDup then { r with replied_at := some "T1" }
          else r) :=
  ⟨by decide,
   webhook_replied_at_updates_every_match wfDup "T1" 7 _ recDupNew
     (by decide) (by decide) (by decide) (by decide) (by decide)⟩

/-- C10: a required form field that is present but empty — or a sender field
from which no address can be extracted — is handled exactly like an absent
field: the event is acknowledged with HTTP 200 and dropped with no store
write; replacing an empty-string field by an absent one does not change the
outcome of the call. -/
theorem webhook_blank_fields_dropped (f : WebhookForm) (now : String)
    (rid : Nat) (db : DB) :
    (senderOf f = "" ∨ bodyOf f = "" ∨ midOf f = "" →
      mailgun_webhook f now rid db = (200, db)) ∧
    mailgun_webhook { f with sender := some "" } now rid db =
      mailgun_webhook { f with sender := none } now rid db ∧
    mailgun_webhook { f with body_plain := some "" } now rid db =
      mailgun_webhook { f with body_plain := none } now rid db ∧
    mailgun_webhook { f with message_id := some "" } now rid db =
      mailgun_webhook { f with message_id := none } now rid db := by
  refine ⟨?_, ?_, ?_, ?_⟩
  · intro h
    unfold mailgun_webhook
    rw [if_pos h]
  · simp [mailgun_webhook, senderOf, bodyOf, midOf, pyOr, ingestReply]
  · simp [mailgun_webhook, senderOf, bodyOf, midOf, pyOr, ingestReply]
  · simp [mailgun_webhook, senderOf, bodyOf, midOf, pyOr, ingestReply]

/-- C10 witness: an event whose sender field holds no extractable address is
acknowledged and dropped. -/
theorem webhook_blank_fields_dropped_witness :
    (senderOf wfNoAddr = "") ∧
    mailgun_webhook wfNoAddr "T0" 1 (DB.mk [] [recOne] []) =
      (200, DB.mk [] [recOne] []) :=
  ⟨by decide,
   (webhook_blank_fields_dropped wfNoAddr "T0" 1 (DB.mk [] [recOne] [])).1
     (Or.inl (by decide))⟩

/-! ### Lemmas: dispatch -/

theorem dispatchLoop_spec (ok : Nat → Bool) (now : String) :
    ∀ (pend : List Recipient) (st : LoopState),
      dispatchLoop ok now pend st =
        { recs := st.recs.map (fun x =>
            if ok x.id && pend.any (fun p => p.id == x.id) then
              { x with sent_at := some now }
            else x),
          sent := st.sent + pend.countP (fun p => ok p.id),
          failed := st.failed + pend.countP (fun p => !ok p.id),
          attempts := st.attempts ++ pend.map (fun p => p.id) } := by
  intro pend
  induction pend with
  | nil =>
    intro st
    simp [dispatchLoop]
  | cons r rest ih =>
    intro st
    cases hok : ok r.id with
    | true =>
      rw [show dispatchLoop ok now (r :: rest) st = dispatchLoop ok now rest
          { recs := markSentById st.recs r.id now, sent := st.sent + 1,
            failed := st.failed, attempts := st.attempts ++ [r.id] } from by
        simp [dispatchLoop, hok]]
      rw [ih]
      simp only [LoopState.mk.injEq]
      refine ⟨?_, ?_, ?_, ?_⟩
      · rw [markSentById, List.map_map]
        apply List.map_congr_left
        intro x _
        simp only [Function.comp_apply, List.any_cons]
        by_cases hx : x.id = r.id
        · simp [hx, hok]
        · have hr : (r.id == x.id) = false := by
            simp only [beq_eq_false_iff_ne]
            exact fun h => hx h.symm
          simp [beq_iff_eq, hx, hr, Bool.false_or]
      · rw [List.countP_cons_of_pos _ _ (by simpa using hok)]
        omega
      · rw [List.countP_cons_of_neg _ _ (by simp [hok])]
      · simp [List.append_assoc]
    | false =>
      rw [show dispatchLoop ok now (r :: rest) st = dispatchLoop ok now rest
          { st with failed := st.failed + 1,
                    attempts := st.attempts ++ [r.id] } from by
        simp [dispatchLoop, hok]]
      rw [ih]
      simp only [LoopState.mk.injEq]
      refine ⟨?_, ?_, ?_, ?_⟩
      · apply List.map_congr_left
        intro x _
        simp only [List.any_cons]
        by_cases hx : x.id = r.id
        · have hxok : ok x.id = false := hx ▸ hok
          simp [hxok]
        · have hr : (r.id == x.id) = false := by
            simp only [beq_eq_false_iff_ne]
            exact fun h => hx h.symm
          simp [hr, Bool.false_or]
      · rw [List.countP_cons_of_neg _ _ (by simpa using hok)]
      · rw [List.countP_cons_of_pos _ _ (by simp [hok])]
        omega
      · simp [List.append_assoc]

theorem mem_unsentOf {db : DB} {cid : Nat} {r : Recipient} :
    r ∈ unsentOf db cid ↔
      r ∈ db.recipients ∧ (r.campaign_id == cid) = true ∧
        r.sent_at.isNone = true := by
  simp only [unsentOf, List.mem_filter, and_assoc]

theorem unsent_cond_eq (db : DB) (cid : Nat) (ok : Nat → Bool)
    (hids : (db.recipients.map (fun r => r.id)).Nodup)
    (x : Recipient) (hx : x ∈ db.recipients) :
    (ok x.id && (unsentOf db cid).any (fun p => p.id == x.id)) =
      (x.campaign_id == cid && x.sent_at.isNone && ok x.id) := by
  cases hox : ok x.id with
  | false => simp [hox]
  | true =>
    simp only [Bool.true_and, Bool.and_true]
    cases hany : (unsentOf db cid).any (fun p => p.id == x.id) with
    | true =>
      rw [List.any_eq_true] at hany
      rcases hany with ⟨p, hp, hpid⟩
      rw [beq_iff_eq] at hpid
      have hpm := mem_unsentOf.mp hp
      have hpx : p = x :=
        List.inj_on_of_nodup_map hids hpm.1 hx hpid
      rw [hpx] at hpm
      simp [hpm.2.1, hpm.2.2]
    | false =>
      cases hcond : (x.campaign_id == cid && x.sent_at.isNone) with
      | false => rfl
      | true =>
        exfalso
        rw [Bool.and_eq_true] at hcond
        have hxm : x ∈ unsentOf db cid :=
          mem_unsentOf.mpr ⟨hx, hcond.1, hcond.2⟩
        rw [List.any_eq_false] at hany
        exact hany x hxm (by simp)

/-- C2: dispatching a ready campaign with a non-empty unsent set attempts
each unsent recipient exactly once, in sequence (the attempt trace is
exactly the unsent list); each successful send stamps that recipient's
`sent_at` with the single shared dispatch timestamp, each failure leaves
the recipient unmarked; afterwards the campaign's status is `sent` when no
send failed and `partial` otherwise, its `sent_at` is the shared timestamp,
and the response reports the success and failure counts. -/
theorem dispatch_ready_campaign (cid : Nat) (ok : Nat → Bool) (now : String)
    (db : DB) (c : Campaign)
    (hfind : db.campaigns.find? (fun d => d.id == cid) = some c)
    (hready : c.status = "ready")
    (hne : unsentOf db cid ≠ [])
    (hids : (db.recipients.map (fun r => r.id)).Nodup) :
    send_campaign cid ok now db =
      (SendResp.okResp ((unsentOf db cid).countP (fun p => ok p.id))
         ((unsentOf db cid).countP (fun p => !ok p.id)),
       { campaigns := db.campaigns.map (fun d =>
           if d.id == cid then
             { d with
               status := if (unsentOf db cid).countP (fun p => !ok p.id) = 0
                 then "sent" else "partial",
               sent_at := some now }
           else d),
         recipients := db.recipients.map (fun r =>
           if r.campaign_id == cid && r.sent_at.isNone && ok r.id then
             { r with sent_at := some now }
           else r),
         replies := db.replies },
       (unsentOf db cid).map (fun p => p.id)) := by
  have hloop := dispatchLoop_spec ok now (unsentOf db cid)
    { recs := db.recipients, sent := 0, failed := 0, attempts := [] }
  unfold send_campaign
  simp only [hfind]
  rw [if_neg (by simp [hready]), if_neg hne]
  rw [hloop]
  simp only [Nat.zero_add, List.nil_append, Prod.mk.injEq, DB.mk.injEq,
    true_and, and_true]
  apply List.map_congr_left
  intro x hx
  rw [unsent_cond_eq db cid ok hids x hx]

/-- C2 witness: the theorem applied to a ready campaign with two unsent
recipients, the transport succeeding only for recipient id 1, yielding a
`partial` campaign with counts `{sent := 1, failed := 1}`. -/
theorem dispatch_ready_campaign_witness :
    (dbDispatch.campaigns.find? (fun d => d.id == 1) = some campReady ∧
     campReady.status = "ready" ∧ unsentOf dbDispatch 1 ≠ [] ∧
     (dbDispatch.recipients.map (fun r => r.id)).Nodup) ∧
    send_campaign 1 okFirst "T" dbDispatch =
      (SendResp.okResp ((unsentOf dbDispatch 1).countP (fun p => okFirst p.id))
         ((unsentOf dbDispatch 1).countP (fun p => !okFirst p.id)),
       { campaigns := dbDispatch.campaigns.map (fun d =>
           if d.id == 1 then
             { d with
               status := if (unsentOf dbDispatch 1).countP
                   (fun p => !okFirst p.id) = 0 then "sent" else "partial",
               sent_at := some "T" }
           else d),
         recipients := dbDispatch.recipients.map (fun r =>
           if r.campaign_id == 1 && r.sent_at.isNone && okFirst r.id then
             { r with sent_at := some "T" }
           else r),
         replies := dbDispatch.replies },
       (unsentOf dbDispatch 1).map (fun p => p.id)) :=
  ⟨⟨by decide, rfl, by decide, by decide⟩,
   dispatch_ready_campaign 1 okFirst "T" dbDispatch campReady (by decide) rfl
     (by decide) (by decide)⟩

/-- C6: dispatch enforces its preconditions with distinct errors and no
state change: a missing campaign yields 404 "campaign not found"; a campaign
not in status `ready` yields 400 "campaign not ready"; a ready campaign
with an empty unsent set yields 400 "no recipients uploaded"; the three
error responses are pairwise distinct, and in each case the store is
returned unchanged with no send attempted. -/
theorem dispatch_preconditions (cid : Nat) (ok : Nat → Bool) (now : String)
    (db : DB) :
    (db.campaigns.find? (fun d => d.id == cid) = none →
      send_campaign cid ok now db =
        (SendResp.errResp 404 "campaign not found", db, [])) ∧
    (∀ c, db.campaigns.find? (fun d => d.id == cid) = some c →
      c.status ≠ "ready" →
      send_campaign cid ok now db =
        (SendResp.errResp 400 "campaign not ready", db, [])) ∧
    (∀ c, db.campaigns.find? (fun d => d.id == cid) = some c →
      c.status = "ready" → unsentOf db cid = [] →
      send_campaign cid ok now db =
        (SendResp.errResp 400 "no recipients uploaded", db, [])) ∧
    (SendResp.errResp 404 "campaign not found" ≠
       SendResp.errResp 400 "campaign not ready" ∧
     SendResp.errResp 400 "campaign not ready" ≠
       SendResp.errResp 400 "no recipients uploaded" ∧
     SendResp.errResp 404 "campaign not found" ≠
       SendResp.errResp 400 "no recipients uploaded") := by
  refine ⟨?_, ?_, ?_, by decide, by decide, by decide⟩
  · intro h
    unfold send_campaign
    simp only [h]
  · intro c hc hst
    unfold send_campaign
    simp only [hc]
    rw [if_pos hst]
  · intro c hc hst he
    unfold send_campaign
    simp only [hc]
    rw [if_neg (by simp [hst]), if_pos he]

/-- C6 witness: the three precondition errors exercised on concrete stores —
an empty store, a draft campaign, and a ready campaign with no unsent
recipients. -/
theorem dispatch_preconditions_witness :
    send_campaign 7 okFirst "T" (DB.mk [] [] []) =
      (SendResp.errResp 404 "campaign not found", DB.mk [] [] [], []) ∧
    send_campaign 2 okFirst "T" (DB.mk [campDraft] [] []) =
      (SendResp.errResp 400 "campaign not ready", DB.mk [campDraft] [] [], []) ∧
    send_campaign 1 okFirst "T" (DB.mk [campReady] [] []) =
      (SendResp.errResp 400 "no recipients uploaded",
       DB.mk [campReady] [] [], []) :=
  ⟨(dispatch_preconditions 7 okFirst "T" (DB.mk [] [] [])).1 (by decide),
   (dispatch_preconditions 2 okFirst "T" (DB.mk [campDraft] [] [])).2.1
     campDraft (by decide) (by decide),
   (dispatch_preconditions 1 okFirst "T" (DB.mk [campReady] [] [])).2.2.1
     campReady (by decide) rfl (by decide)⟩

/-! ### Lemmas: upload and token uniqueness -/

theorem insertChecked_nodup (recs : List Recipient) (r : Recipient)
    (l : List Recipient) (h : (tokensOf recs).Nodup)
    (hok : insertRecipientChecked recs r = .ok l) : (tokensOf l).Nodup := by
  unfold insertRecipientChecked at hok
  split at hok
  · exact (Except.ok.inj hok) ▸ h
  · split at hok
    · exact Except.noConfusion hok
    · rename_i hpair htok
      rw [← Except.ok.inj hok]
      simp only [tokensOf, List.map_append, List.map_cons, List.map_nil]
      refine List.nodup_append.mpr ⟨h, List.nodup_singleton _, ?_⟩
      intro a ha hb
      rw [List.mem_singleton] at hb
      subst hb
      rcases List.mem_map.mp ha with ⟨x, hx, hxa⟩
      simp only [Bool.not_eq_true, List.any_eq_false] at htok
      have hfalse := htok x hx
      rw [hxa] at hfalse
      simp at hfalse

theorem foldChecked_nodup :
    ∀ (rows recs : List Recipient), (tokensOf recs).Nodup →
      ∀ l, rows.foldlM insertRecipientChecked recs = Except.ok l →
        (tokensOf l).Nodup := by
  intro rows
  induction rows with
  | nil =>
    intro recs h l hl
    simp only [List.foldlM_nil] at hl
    exact (Except.ok.inj hl) ▸ h
  | cons r rest ih =>
    intro recs h l hl
    rw [List.foldlM_cons] at hl
    cases hins : insertRecipientChecked recs r with
    | error e =>
      rw [hins] at hl
      exact Except.noConfusion hl
    | ok recs1 =>
      rw [hins] at hl
      exact ih recs1 (insertChecked_nodup recs r recs1 h hins) l hl

theorem tokensOf_markRepliedAll (recs : List Recipient) (sender now : String) :
    tokensOf (markRepliedAll recs sender now) = tokensOf recs := by
  simp only [tokensOf, markRepliedAll, List.map_map]
  apply List.map_congr_left
  intro x _
  simp only [Function.comp_apply]
  split <;> rfl

theorem tokensOf_send_campaign (cid : Nat) (ok : Nat → Bool) (now : String)
    (db : DB) :
    tokensOf (send_campaign cid ok now db).2.1.recipients =
      tokensOf db.recipients := by
  unfold send_campaign
  cases hfind : db.campaigns.find? (fun d => d.id == cid) with
  | none => rfl
  | some c =>
    dsimp only
    by_cases hst : c.status ≠ "ready"
    · rw [if_pos hst]
    · rw [if_neg hst]
      by_cases hne : unsentOf db cid = []
      · rw [if_pos hne]
      · rw [if_neg hne]
        simp only [dispatchLoop_spec]
        simp only [tokensOf, List.map_map]
        apply List.map_congr_left
        intro x _
        simp only [Function.comp_apply]
        split <;> rfl

/-- C3: evidence of the reported-count bug at a concrete failing input — a
campaign that already has the recipient `(1, "a@b.co")` receives an upload
of exactly that email: no recipient row is created (the store is returned
unchanged), yet the response reports `{"uploaded": 1}`, the length of the
input list, where the specified count of rows actually created is `0`. -/
theorem upload_count_reports_input_length :
    upload_emails 1 ["a@b.co"] (fun _ => "tk") (fun _ => 50) 9
        (DB.mk [campReady] [recDupOld] []) =
      (UploadResp.okResp 1, DB.mk [campReady] [recDupOld] []) ∧
    (upload_emails 1 ["a@b.co"] (fun _ => "tk") (fun _ => 50) 9
        (DB.mk [campReady] [recDupOld] [])).2.recipients.length =
      (DB.mk [campReady] [recDupOld] []).recipients.length := by
  exact ⟨by decide, by decide⟩

/-- C8: token uniqueness as a storage-enforced global invariant, settled
against the spec-modelled constraint (`insertRecipientChecked`): an upload
that succeeds preserves "no two recipients share a token"; inserting a row
whose token is already bound (and whose (campaign, email) pair is new)
surfaces the uniqueness error rather than inserting; a successful insert
never overwrites — it returns the table unchanged or with the one row
appended; and neither webhook ingestion nor dispatch alters any token. -/
theorem token_uniqueness_enforced (cid : Nat) (emails : List String)
    (toks : Nat → String) (ids : Nat → Nat) (now : Nat) (db : DB)
    (hnd : (tokensOf db.recipients).Nodup) :
    (∀ resp db2, upload_emails_checked cid emails toks ids now db =
        .ok (resp, db2) → (tokensOf db2.recipients).Nodup) ∧
    (∀ recs r, (recs.any (fun x =>
          x.campaign_id == r.campaign_id && x.email == r.email)) = false →
      (recs.any (fun x => x.token == r.token)) = true →
      insertRecipientChecked recs r =
        .error "unique constraint violated on recipients token") ∧
    (∀ recs r l, insertRecipientChecked recs r = .ok l →
      l = recs ∨ l = recs ++ [r]) ∧
    (∀ f nw rid, tokensOf (mailgun_webhook f nw rid db).2.recipients =
      tokensOf db.recipients) ∧
    (∀ ok nw, tokensOf (send_campaign cid ok nw db).2.1.recipients =
      tokensOf db.recipients) := by
  refine ⟨?_, ?_, ?_, ?_, ?_⟩
  · intro resp db2 hok
    unfold upload_emails_checked at hok
    split at hok
    · simp only [Except.ok.injEq, Prod.mk.injEq] at hok
      rw [← hok.2]
      exact hnd
    · split at hok
      · simp only [Except.ok.injEq, Prod.mk.injEq] at hok
        rw [← hok.2]
        exact hnd
      · split at hok
        · exact Except.noConfusion hok
        · rename_i recs1 hfold
          simp only [Except.ok.injEq, Prod.mk.injEq] at hok
          rw [← hok.2]
          exact foldChecked_nodup _ _ hnd recs1 hfold
  · intro recs r hpair htok
    unfold insertRecipientChecked
    rw [if_neg (by simp [hpair]), if_pos htok]
  · intro recs r l hok
    unfold insertRecipientChecked at hok
    split at hok
    · exact Or.inl (Except.ok.inj hok).symm
    · split at hok
      · exact Except.noConfusion hok
      · exact Or.inr (Except.ok.inj hok).symm
  · intro f nw rid
    rcases webhook_split f nw rid db with h | ⟨rec, _, _, _, _, _, h⟩
    · rw [h]
    · rw [h]
      exact tokensOf_markRepliedAll _ _ _
  · intro ok nw
    exact tokensOf_send_campaign cid ok nw db

/-- C8 witness: the theorem applied to an upload of two fresh emails with
distinct tokens into an empty recipient directory. -/
theorem token_uniqueness_enforced_witness :
    (tokensOf dbUpload.recipients).Nodup ∧
    ((∀ resp db2, upload_emails_checked 1 ["a@b.co", "x@y.co"] toksW idsW 5
          dbUpload = .ok (resp, db2) → (tokensOf db2.recipients).Nodup) ∧
     (∀ recs r, (recs.any (fun x =>
           x.campaign_id == r.campaign_id && x.email == r.email)) = false →
       (recs.any (fun x => x.token == r.token)) = true →
       insertRecipientChecked recs r =
         .error "unique constraint violated on recipients token") ∧
     (∀ recs r l, insertRecipientChecked recs r = .ok l →
       l = recs ∨ l = recs ++ [r]) ∧
     (∀ f nw rid, tokensOf (mailgun_webhook f nw rid dbUpload).2.recipients =
       tokensOf dbUpload.recipients) ∧
     (∀ ok nw, tokensOf (send_campaign 1 ok nw dbUpload).2.1.recipients =
       tokensOf dbUpload.recipients)) :=
  ⟨by decide,
   token_uniqueness_enforced 1 ["a@b.co", "x@y.co"] toksW idsW 5 dbUpload
     (by decide)⟩

/-- C9: the reply CSV export is role-scoped.  For a management-role caller
the header is `received_at, recipient_email, token, subject, body` and each
row carries those fields of one reply; for a constrained-role caller the
header is `received_at, token, subject, body`, each row carries only those
fields, and — provided no stored timestamp or token contains `@` — no
non-subject/body cell contains `@`, so no email address appears there.  In
both variants the rows are exactly the campaign's replies, ordered
reverse-chronologically by `received_at`. -/
theorem replies_csv_role_scoped (is_c : Bool) (cid : Nat) (db : DB)
    (hq : ∀ r ∈ db.replies, '@' ∉ r.received_at.data ∧
      '@' ∉ (r.token.getD "").data) :
    (∀ hdr rows, replies_csv true is_c cid db = some (hdr, rows) →
      hdr = ["received_at", "recipient_email", "token", "subject", "body"] ∧
      ∃ l : List Reply,
        List.Perm l (db.replies.filter (fun r => r.campaign_id == some cid)) ∧
        List.Sorted replyGE l ∧ rows = l.map replyRowM) ∧
    (∀ hdr rows, replies_csv false true cid db = some (hdr, rows) →
      (hdr = ["received_at", "token", "subject", "body"] ∧
       ∃ l : List Reply,
         List.Perm l (db.replies.filter (fun r => r.campaign_id == some cid)) ∧
         List.Sorted replyGE l ∧ rows = l.map replyRowC) ∧
      ∀ row ∈ rows, ∀ cell ∈ row.take 2, '@' ∉ cell.data) := by
  constructor
  · intro hdr rows heq
    have heq' : (["received_at", "recipient_email", "token", "subject", "body"],
        (repliesOfCampaign db cid).map replyRowM) = (hdr, rows) :=
      Option.some.inj heq
    rw [Prod.mk.injEq] at heq'
    refine ⟨heq'.1.symm, repliesOfCampaign db cid, ?_, ?_, heq'.2.symm⟩
    · exact List.perm_insertionSort replyGE _
    · exact List.sorted_insertionSort replyGE _
  · intro hdr rows heq
    have heq' : (["received_at", "token", "subject", "body"],
        (repliesOfCampaign db cid).map replyRowC) = (hdr, rows) :=
      Option.some.inj heq
    rw [Prod.mk.injEq] at heq'
    refine ⟨⟨heq'.1.symm, repliesOfCampaign db cid, ?_, ?_, heq'.2.symm⟩, ?_⟩
    · exact List.perm_insertionSort replyGE _
    · exact List.sorted_insertionSort replyGE _
    · intro row hrow cell hcell
      rw [← heq'.2] at hrow
      rcases List.mem_map.mp hrow with ⟨r, hr, hrEq⟩
      have hrdb : r ∈ db.replies := by
        have hr' : r ∈ List.insertionSort replyGE
            (db.replies.filter (fun x => x.campaign_id == some cid)) := hr
        rw [List.mem_insertionSort] at hr'
        exact (List.mem_filter.mp hr').1
      rw [← hrEq] at hcell
      simp only [replyRowC, List.take_succ_cons, List.take_zero,
        List.mem_cons, List.not_mem_nil, or_false] at hcell
      rcases hq r hrdb with ⟨hq1, hq2⟩
      rcases hcell with h | h
      · rw [h]; exact hq1
      · rw [h]; exact hq2

/-- C9 witness: both role variants exported from a store holding two replies
of campaign 1 and one of campaign 9. -/
theorem replies_csv_role_scoped_witness :
    (∀ r ∈ dbCsv.replies, '@' ∉ r.received_at.data ∧
      '@' ∉ (r.token.getD "").data) ∧
    ((∀ hdr rows, replies_csv true true 1 dbCsv = some (hdr, rows) →
       hdr = ["received_at", "recipient_email", "token", "subject", "body"] ∧
       ∃ l : List Reply,
         List.Perm l (dbCsv.replies.filter (fun r => r.campaign_id == some 1)) ∧
         List.Sorted replyGE l ∧ rows = l.map replyRowM) ∧
     (∀ hdr rows, replies_csv false true 1 dbCsv = some (hdr, rows) →
       (hdr = ["received_at", "token", "subject", "body"] ∧
        ∃ l : List Reply,
          List.Perm l (dbCsv.replies.filter (fun r => r.campaign_id == some 1)) ∧
          List.Sorted replyGE l ∧ rows = l.map replyRowC) ∧
       ∀ row ∈ rows, ∀ cell ∈ row.take 2, '@' ∉ cell.data)) :=
  ⟨by decide, replies_csv_role_scoped true 1 dbCsv (by decide)⟩
